import Mathlib

/-!
Verification of the numeric core of the vfx-rs repository: the FastMath
polynomial log2/exp2/pow approximations, the ASC CDL grading operator,
the 1D/3D LUT interpolators and the HLG transfer curve, as embedded by
the Python reference scripts of the repository.

Numbers are modelled exactly: finite float values become rationals, and
the special values produced by Python float arithmetic (nan, -inf, +inf)
are modelled by the four-constructor type FV below.  Rounding of the
underlying f32/f64 arithmetic is abstracted away; every arithmetic step
is the exact operation the source performs.
-/

/-- Value of a Python float variable: nan, -inf, a finite value (modelled
exactly as a rational), or +inf. -/
inductive FV where
  | nan : FV
  | neginf : FV
  | fin : ℚ → FV
  | posinf : FV
deriving DecidableEq

namespace FV

/-- Negation of a Python float. -/
def neg : FV → FV
  | nan => nan
  | neginf => posinf
  | fin q => fin (-q)
  | posinf => neginf

/-- Addition of Python floats: nan propagates, inf + -inf is nan. -/
def add : FV → FV → FV
  | nan, _ => nan
  | _, nan => nan
  | posinf, neginf => nan
  | neginf, posinf => nan
  | posinf, _ => posinf
  | _, posinf => posinf
  | neginf, _ => neginf
  | _, neginf => neginf
  | fin a, fin b => fin (a + b)

/-- Subtraction of Python floats. -/
def sub (a b : FV) : FV := a.add b.neg

/-- Multiplication of Python floats: nan propagates, 0 * inf is nan,
signed infinities otherwise. -/
def mul : FV → FV → FV
  | nan, _ => nan
  | _, nan => nan
  | fin a, fin b => fin (a * b)
  | posinf, posinf => posinf
  | posinf, neginf => neginf
  | neginf, posinf => neginf
  | neginf, neginf => posinf
  | posinf, fin q => if 0 < q then posinf else if q < 0 then neginf else nan
  | fin q, posinf => if 0 < q then posinf else if q < 0 then neginf else nan
  | neginf, fin q => if 0 < q then neginf else if q < 0 then posinf else nan
  | fin q, neginf => if 0 < q then neginf else if q < 0 then posinf else nan

/-- The numpy clip of a float to the interval from 0 to 1: nan stays nan,
-inf clips to 0, +inf clips to 1. -/
def clip01 : FV → FV
  | nan => nan
  | neginf => fin 0
  | posinf => fin 1
  | fin q => fin (max 0 (min 1 q))

/-- The float is a finite value lying in the closed interval from 0 to 1. -/
def in01 : FV → Prop
  | fin q => 0 ≤ q ∧ q ≤ 1
  | _ => False

instance : DecidablePred in01 := fun f =>
  match f with
  | nan => isFalse (fun h => h)
  | neginf => isFalse (fun h => h)
  | posinf => isFalse (fun h => h)
  | fin q => inferInstanceAs (Decidable (0 ≤ q ∧ q ≤ 1))

end FV

/-!
FastMath polynomial coefficients, shared verbatim by verify_fast_pow.py
and verify_cdl_final.py (the OCIO SSE constants).
-/

def PNLOG5 : ℚ := 4.487361286440374006195e-2
def PNLOG4 : ℚ := -4.165637071209677112635e-1
def PNLOG3 : ℚ := 1.631148826119436277100
def PNLOG2 : ℚ := -3.550793018041176193407
def PNLOG1 : ℚ := 5.091710879305474367557
def PNLOG0 : ℚ := -2.800364054395965731506

def PNEXP4 : ℚ := 1.353416792833547468620e-2
def PNEXP3 : ℚ := 5.201146058412685018921e-2
def PNEXP2 : ℚ := 2.414427569091865207710e-1
def PNEXP1 : ℚ := 6.930038344665415134202e-1
def PNEXP0 : ℚ := 1.000002593370603213644

/-- Exponent field extraction of a positive f32 value x: the integer e with
2 ^ e <= x < 2 ^ (e + 1), which both scripts read out of the exponent bits
of the float.  The value for non-positive x is irrelevant (the callers
guard x > 0). -/
def floatExp (x : ℚ) : ℤ := Int.log 2 x

/-- Mantissa extraction of a positive f32 value x, in the interval from 1
to 2: the scripts build it by overwriting the exponent bits with the bias
127, which divides x by 2 ^ floatExp x. -/
def mantissa (x : ℚ) : ℚ := x / 2 ^ floatExp x

/-- Degree-5 Horner polynomial of fast_log2, exactly as both scripts nest
it. -/
def polyLog (m : ℚ) : ℚ :=
  PNLOG0 + m * (PNLOG1 + m * (PNLOG2 + m * (PNLOG3 + m * (PNLOG4 + m * PNLOG5))))

/-- Finite value returned by fast_log2 on a positive input: the polynomial
of the mantissa plus the extracted exponent. -/
def log2core (x : ℚ) : ℚ := polyLog (mantissa x) + floatExp x

/-- The fast_log2 function of verify_fast_pow.py and verify_cdl_final.py
(both files contain the identical code): non-positive inputs return the
-inf sentinel, positive inputs the polynomial approximation. -/
def fast_log2 (x : ℚ) : FV :=
  if x ≤ 0 then FV.neginf else FV.fin (log2core x)

/-- Degree-4 Horner polynomial of fast_exp2, exactly as both scripts nest
it. -/
def polyExp (f : ℚ) : ℚ :=
  PNEXP0 + f * (PNEXP1 + f * (PNEXP2 + f * (PNEXP3 + f * PNEXP4)))

/-- The float built by writing fx + 127 into the exponent bits of an f32
with zero mantissa: 2 ^ fx for an exponent field of at least 1, and 0.0
when the field is 0 or less (both scripts only reach fx between -127 and
127 thanks to the range guards). -/
def zfOfExp (fx : ℤ) : ℚ := if fx ≤ -127 then 0 else 2 ^ fx

namespace VerifyFastPow

/-- The fast_exp2 function of verify_fast_pow.py: range sentinels, then
the split into the mathematical floor and the fraction, computed there
with math.floor. -/
def fast_exp2 (x : ℚ) : FV :=
  if x < -126 then FV.fin 0
  else if 128 ≤ x then FV.posinf
  else FV.fin (zfOfExp ⌊x⌋ * polyExp (x - ⌊x⌋))

/-- The fast_pow function of verify_fast_pow.py: 0 for non-positive base,
else exp2 of the product of the exponent with the finite fast_log2 value
(the base is positive there, so fast_log2 returns its finite value). -/
def fast_pow (base e : ℚ) : FV :=
  if base ≤ 0 then FV.fin 0 else fast_exp2 (e * log2core base)

end VerifyFastPow

namespace VerifyCdlFinal

/-- The Python int function on a float: truncation toward zero. -/
def pyInt (x : ℚ) : ℤ := if 0 ≤ x then ⌊x⌋ else ⌈x⌉

/-- The floor computation of fast_exp2 in verify_cdl_final.py: int x for
x >= 0 and int x - 1 for x < 0. -/
def floorB (x : ℚ) : ℤ := if 0 ≤ x then pyInt x else pyInt x - 1

/-- The fast_exp2 function of verify_cdl_final.py: identical to the one in
verify_fast_pow.py except that the floor is computed through floorB. -/
def fast_exp2 (x : ℚ) : FV :=
  if x < -126 then FV.fin 0
  else if 128 ≤ x then FV.posinf
  else FV.fin (zfOfExp (floorB x) * polyExp (x - floorB x))

/-- The fast_pow function of verify_cdl_final.py. -/
def fast_pow (base e : ℚ) : FV :=
  if base ≤ 0 then FV.fin 0 else fast_exp2 (e * log2core base)

/-- Rec.709 luma weights of verify_cdl_final.py. -/
def LUMA_R : ℚ := 0.2126
def LUMA_G : ℚ := 0.7152
def LUMA_B : ℚ := 0.0722

/-- The pre-power clamp of apply_cdl_manual: max(0.0, min(1.0, v)). -/
def clamp01 (v : ℚ) : ℚ := max 0 (min 1 v)

/-- One slope-offset-power channel of apply_cdl_manual: multiply by the
slope, add the offset, clamp to the unit interval, then apply fast_pow
unless the power is exactly 1. -/
def sopChannel (x s o p : ℚ) : FV :=
  if p ≠ 1 then fast_pow (clamp01 (x * s + o)) p else FV.fin (clamp01 (x * s + o))

/-- The saturation stage of apply_cdl_manual: weight each channel, sum the
weighted channels into the luma, then blend each source channel with the
luma by the saturation factor. -/
def satStage (sat : ℚ) (r g b : FV) : FV × FV × FV :=
  let wr := r.mul (FV.fin LUMA_R)
  let wg := g.mul (FV.fin LUMA_G)
  let wb := b.mul (FV.fin LUMA_B)
  let luma := (wr.add wg).add wb
  ((luma.add ((FV.fin sat).mul (r.sub luma))),
   (luma.add ((FV.fin sat).mul (g.sub luma))),
   (luma.add ((FV.fin sat).mul (b.sub luma))))

/-- The saturation branch of apply_cdl_manual: the saturation stage runs
only when the saturation differs from 1 by more than 1e-9. -/
def satSwitch (sat : ℚ) (t : FV × FV × FV) : FV × FV × FV :=
  if |sat - 1| > 1e-9 then satStage sat t.1 t.2.1 t.2.2 else t

/-- The final clamp of apply_cdl_manual: the numpy clip of every channel
to the unit interval. -/
def clipStage (t : FV × FV × FV) : FV × FV × FV :=
  (t.1.clip01, t.2.1.clip01, t.2.2.clip01)

/-- The apply_cdl_manual function of verify_cdl_final.py on one pixel:
slope-offset-power per channel, the saturation stage unless the
saturation is within 1e-9 of 1, then the final numpy clip of every
channel to the unit interval. -/
def apply_cdl_manual (px : ℚ × ℚ × ℚ) (slope offset power : ℚ × ℚ × ℚ)
    (sat : ℚ) : FV × FV × FV :=
  clipStage (satSwitch sat
    (sopChannel px.1 slope.1 offset.1 power.1,
     sopChannel px.2.1 slope.2.1 offset.2.1 power.2.1,
     sopChannel px.2.2 slope.2.2 offset.2.2 power.2.2))

end VerifyCdlFinal

/-- The clamp-before-power property of the CDL operator (claim C1): on the
zero pixel with unit slope, offset -0.1, power 1.2 and saturation 1,
apply_cdl_manual returns exactly the zero pixel, because the value -0.1
is clamped to 0 before the power stage and fast_pow with base 0 yields 0. -/
theorem claim_C1_cdl_clamp_before_power :
    VerifyCdlFinal.apply_cdl_manual (0, 0, 0) (1, 1, 1)
      (-0.1, -0.1, -0.1) (1.2, 1.2, 1.2) 1 = (FV.fin 0, FV.fin 0, FV.fin 0) := by
  have hc : VerifyCdlFinal.clamp01 (0 * 1 + -0.1) = 0 := by
    unfold VerifyCdlFinal.clamp01
    norm_num
  have hsop : VerifyCdlFinal.sopChannel 0 1 (-0.1) 1.2 = FV.fin 0 := by
    unfold VerifyCdlFinal.sopChannel
    rw [if_pos (by norm_num), hc]
    unfold VerifyCdlFinal.fast_pow
    rw [if_pos le_rfl]
  unfold VerifyCdlFinal.apply_cdl_manual
  rw [hsop]
  norm_num [VerifyCdlFinal.satSwitch, VerifyCdlFinal.clipStage, FV.clip01]

namespace VerifyCdlFinal

/-- The unit-interval clamp is the identity on the unit interval. -/
theorem clamp01_of_mem {q : ℚ} (h0 : 0 ≤ q) (h1 : q ≤ 1) : clamp01 q = q := by
  unfold clamp01
  rw [min_eq_right h1, max_eq_right h0]

/-- A slope-offset-power channel is either a finite value or the +inf
sentinel, never nan or -inf. -/
theorem sopChannel_cases (x s o p : ℚ) :
    (∃ q, sopChannel x s o p = FV.fin q) ∨ sopChannel x s o p = FV.posinf := by
  unfold sopChannel fast_pow fast_exp2
  split
  · split
    · exact Or.inl ⟨0, rfl⟩
    · split
      · exact Or.inl ⟨0, rfl⟩
      · split
        · exact Or.inr rfl
        · exact Or.inl ⟨_, rfl⟩
  · exact Or.inl ⟨_, rfl⟩

/-- The saturation stage on three finite channels, computed out. -/
theorem satStage_fin (sat a b c : ℚ) :
    satStage sat (FV.fin a) (FV.fin b) (FV.fin c) =
      (FV.fin (a * LUMA_R + b * LUMA_G + c * LUMA_B +
          sat * (a - (a * LUMA_R + b * LUMA_G + c * LUMA_B))),
       FV.fin (a * LUMA_R + b * LUMA_G + c * LUMA_B +
          sat * (b - (a * LUMA_R + b * LUMA_G + c * LUMA_B))),
       FV.fin (a * LUMA_R + b * LUMA_G + c * LUMA_B +
          sat * (c - (a * LUMA_R + b * LUMA_G + c * LUMA_B)))) := by
  simp only [satStage, FV.mul, FV.add, FV.sub, FV.neg, Prod.mk.injEq, FV.fin.injEq]
  refine ⟨by ring, by ring, by ring⟩

/-- The final clip of a finite channel lands in the unit interval. -/
theorem clip01_fin_in01 (q : ℚ) : ((FV.fin q).clip01).in01 := by
  simp only [FV.clip01, FV.in01]
  constructor
  · exact le_max_left 0 (min 1 q)
  · exact max_le (by norm_num) (min_le_left 1 q)

end VerifyCdlFinal

/-- The identity CDL is a fixed point of the grading operator (claim C4):
with unit slope, zero offset, unit power and saturation 1,
apply_cdl_manual returns any unit-interval pixel unchanged, exactly,
because the power stage is skipped at power 1 and the saturation stage is
skipped when the saturation is within 1e-9 of 1. -/
theorem claim_C4_identity_cdl (p1 p2 p3 : ℚ)
    (h1l : 0 ≤ p1) (h1r : p1 ≤ 1) (h2l : 0 ≤ p2) (h2r : p2 ≤ 1)
    (h3l : 0 ≤ p3) (h3r : p3 ≤ 1) :
    VerifyCdlFinal.apply_cdl_manual (p1, p2, p3) (1, 1, 1) (0, 0, 0) (1, 1, 1) 1 =
      (FV.fin p1, FV.fin p2, FV.fin p3) := by
  have hsop : ∀ q : ℚ, 0 ≤ q → q ≤ 1 →
      VerifyCdlFinal.sopChannel q 1 0 1 = FV.fin q := by
    intro q hq0 hq1
    unfold VerifyCdlFinal.sopChannel
    rw [if_neg (by norm_num)]
    rw [show q * 1 + 0 = q by ring, VerifyCdlFinal.clamp01_of_mem hq0 hq1]
  unfold VerifyCdlFinal.apply_cdl_manual VerifyCdlFinal.satSwitch
  rw [hsop p1 h1l h1r, hsop p2 h2l h2r, hsop p3 h3l h3r]
  rw [if_neg (by norm_num)]
  show (FV.clip01 (FV.fin p1), FV.clip01 (FV.fin p2), FV.clip01 (FV.fin p3)) =
    (FV.fin p1, FV.fin p2, FV.fin p3)
  simp only [FV.clip01, FV.fin.injEq, Prod.mk.injEq]
  exact ⟨by rw [min_eq_right h1r, max_eq_right h1l],
    by rw [min_eq_right h2r, max_eq_right h2l],
    by rw [min_eq_right h3r, max_eq_right h3l]⟩

/-- Witness for claim C4 at the concrete pixel (1/2, 1/3, 1/4). -/
theorem claim_C4_identity_cdl_witness :
    (0 ≤ (1/2 : ℚ) ∧ (1/2 : ℚ) ≤ 1) ∧
    VerifyCdlFinal.apply_cdl_manual (1/2, 1/3, 1/4) (1, 1, 1) (0, 0, 0) (1, 1, 1) 1 =
      (FV.fin (1/2), FV.fin (1/3), FV.fin (1/4)) :=
  ⟨⟨by norm_num, by norm_num⟩,
    claim_C4_identity_cdl (1/2) (1/3) (1/4) (by norm_num) (by norm_num)
      (by norm_num) (by norm_num) (by norm_num) (by norm_num)⟩

/-- Amended claim C3: every channel of the pixel returned by
apply_cdl_manual lies in the unit interval, for every pixel and every
parameter set whose three slope-offset-power channel results are finite
(the final clamp is unconditional, but a channel whose power stage
overflows to the +inf sentinel turns the saturation stage into nan, which
the final numpy clip does not remove; see the counterexample). -/
theorem claim_C3_output_in_unit_interval (px slope offset power : ℚ × ℚ × ℚ)
    (sat : ℚ)
    (hr : VerifyCdlFinal.sopChannel px.1 slope.1 offset.1 power.1 ≠ FV.posinf)
    (hg : VerifyCdlFinal.sopChannel px.2.1 slope.2.1 offset.2.1 power.2.1 ≠ FV.posinf)
    (hb : VerifyCdlFinal.sopChannel px.2.2 slope.2.2 offset.2.2 power.2.2 ≠ FV.posinf) :
    (VerifyCdlFinal.apply_cdl_manual px slope offset power sat).1.in01 ∧
    (VerifyCdlFinal.apply_cdl_manual px slope offset power sat).2.1.in01 ∧
    (VerifyCdlFinal.apply_cdl_manual px slope offset power sat).2.2.in01 := by
  obtain ⟨qr, hqr⟩ :=
    (VerifyCdlFinal.sopChannel_cases px.1 slope.1 offset.1 power.1).resolve_right hr
  obtain ⟨qg, hqg⟩ :=
    (VerifyCdlFinal.sopChannel_cases px.2.1 slope.2.1 offset.2.1 power.2.1).resolve_right hg
  obtain ⟨qb, hqb⟩ :=
    (VerifyCdlFinal.sopChannel_cases px.2.2 slope.2.2 offset.2.2 power.2.2).resolve_right hb
  unfold VerifyCdlFinal.apply_cdl_manual VerifyCdlFinal.satSwitch
  rw [hqr, hqg, hqb]
  by_cases hs : |sat - 1| > 1e-9
  · rw [if_pos hs, VerifyCdlFinal.satStage_fin]
    exact ⟨VerifyCdlFinal.clip01_fin_in01 _, VerifyCdlFinal.clip01_fin_in01 _,
      VerifyCdlFinal.clip01_fin_in01 _⟩
  · rw [if_neg hs]
    exact ⟨VerifyCdlFinal.clip01_fin_in01 _, VerifyCdlFinal.clip01_fin_in01 _,
      VerifyCdlFinal.clip01_fin_in01 _⟩

/-- Witness for amended claim C3 at a concrete pixel and parameter set. -/
theorem claim_C3_output_in_unit_interval_witness :
    (VerifyCdlFinal.sopChannel (1/2) 1 0 1 ≠ FV.posinf) ∧
    (VerifyCdlFinal.apply_cdl_manual (1/2, 1/3, 1/4) (1, 1, 1) (0, 0, 0)
        (1, 1, 1) 2).1.in01 := by
  have h : ∀ x : ℚ, VerifyCdlFinal.sopChannel x 1 0 1 ≠ FV.posinf := by
    intro x
    unfold VerifyCdlFinal.sopChannel
    rw [if_neg (by norm_num)]
    exact fun hc => FV.noConfusion hc
  exact ⟨h (1/2),
    (claim_C3_output_in_unit_interval (1/2, 1/3, 1/4) (1, 1, 1) (0, 0, 0)
      (1, 1, 1) 2 (h (1/2)) (h (1/3)) (h (1/4))).1⟩

/-- Counterexample to claim C3 as stated: with the finite parameter set
slope 1, offset 0, power (2^30, 1, 1) and saturation 2, the power stage of
the red channel of the white pixel overflows to the +inf sentinel
(2^30 multiplied by the fast_log2 value of 1, which is about 1.25e-5,
exceeds the exp2 range bound 128), the saturation stage then produces nan
on every channel, and the nan survives the final clip, so the red output
channel does not lie in the unit interval. -/
theorem claim_C3_counterexample :
    ¬ (VerifyCdlFinal.apply_cdl_manual (1, 1, 1) (1, 1, 1) (0, 0, 0)
        (1073741824, 1, 1) 2).1.in01 := by
  have hlog : log2core 1 = polyLog 1 := by
    unfold log2core mantissa floatExp
    rw [Int.log_one_right]
    norm_num
  have hsopr : VerifyCdlFinal.sopChannel 1 1 0 1073741824 = FV.posinf := by
    unfold VerifyCdlFinal.sopChannel
    rw [if_pos (by norm_num)]
    rw [show VerifyCdlFinal.clamp01 (1 * 1 + 0) = 1 by
      unfold VerifyCdlFinal.clamp01; norm_num]
    unfold VerifyCdlFinal.fast_pow VerifyCdlFinal.fast_exp2
    rw [if_neg (by norm_num), hlog]
    rw [if_neg (by
      unfold polyLog PNLOG0 PNLOG1 PNLOG2 PNLOG3 PNLOG4 PNLOG5
      norm_num)]
    rw [if_pos (by
      unfold polyLog PNLOG0 PNLOG1 PNLOG2 PNLOG3 PNLOG4 PNLOG5
      norm_num)]
  have hsopg : VerifyCdlFinal.sopChannel 1 1 0 1 = FV.fin 1 := by
    unfold VerifyCdlFinal.sopChannel
    rw [if_neg (by norm_num)]
    rw [show VerifyCdlFinal.clamp01 (1 * 1 + 0) = 1 by
      unfold VerifyCdlFinal.clamp01; norm_num]
  unfold VerifyCdlFinal.apply_cdl_manual VerifyCdlFinal.satSwitch
  rw [hsopr, hsopg]
  rw [if_pos (by norm_num)]
  rw [show VerifyCdlFinal.satStage 2 FV.posinf (FV.fin 1) (FV.fin 1) =
      (FV.nan, FV.nan, FV.nan) by
    unfold VerifyCdlFinal.satStage
    simp only [FV.mul, FV.add, FV.sub, FV.neg]
    rw [if_pos (by unfold VerifyCdlFinal.LUMA_R; norm_num)]
    norm_num [FV.add]]
  exact fun hc => hc

/-- Amended claim C5: FastMath is total with the documented sentinels.
fast_log2 returns the -inf sentinel for every non-positive input and a
computed finite value otherwise; fast_exp2 returns 0 below -126, +inf at
and above 128, and a computed finite value in between; fast_pow returns 0
for every non-positive base, and for a positive base it returns either a
finite value or the +inf overflow sentinel of fast_exp2 (finite whenever
the intermediate product stays below 128) — never nan and never -inf, so
no call raises an exception. -/
theorem claim_C5_fastmath_sentinels :
    (∀ x : ℚ, x ≤ 0 → fast_log2 x = FV.neginf) ∧
    (∀ x : ℚ, 0 < x → fast_log2 x = FV.fin (log2core x)) ∧
    (∀ x : ℚ, x < -126 → VerifyFastPow.fast_exp2 x = FV.fin 0) ∧
    (∀ x : ℚ, 128 ≤ x → VerifyFastPow.fast_exp2 x = FV.posinf) ∧
    (∀ x : ℚ, -126 ≤ x → x < 128 →
      VerifyFastPow.fast_exp2 x = FV.fin (zfOfExp ⌊x⌋ * polyExp (x - ⌊x⌋))) ∧
    (∀ b e : ℚ, b ≤ 0 → VerifyFastPow.fast_pow b e = FV.fin 0) ∧
    (∀ b e : ℚ, 0 < b →
      (∃ q, VerifyFastPow.fast_pow b e = FV.fin q) ∨
        VerifyFastPow.fast_pow b e = FV.posinf) ∧
    (∀ b e : ℚ, 0 < b → e * log2core b < 128 →
      ∃ q, VerifyFastPow.fast_pow b e = FV.fin q) := by
  refine ⟨?_, ?_, ?_, ?_, ?_, ?_, ?_, ?_⟩
  · intro x hx
    unfold fast_log2
    rw [if_pos hx]
  · intro x hx
    unfold fast_log2
    rw [if_neg (not_le.mpr hx)]
  · intro x hx
    unfold VerifyFastPow.fast_exp2
    rw [if_pos hx]
  · intro x hx
    unfold VerifyFastPow.fast_exp2
    rw [if_neg (by linarith), if_pos hx]
  · intro x hx1 hx2
    unfold VerifyFastPow.fast_exp2
    rw [if_neg (not_lt.mpr hx1), if_neg (not_le.mpr hx2)]
  · intro b e hb
    unfold VerifyFastPow.fast_pow
    rw [if_pos hb]
  · intro b e hb
    unfold VerifyFastPow.fast_pow VerifyFastPow.fast_exp2
    rw [if_neg (not_le.mpr hb)]
    split
    · exact Or.inl ⟨0, rfl⟩
    · split
      · exact Or.inr rfl
      · exact Or.inl ⟨_, rfl⟩
  · intro b e hb hlt
    unfold VerifyFastPow.fast_pow VerifyFastPow.fast_exp2
    rw [if_neg (not_le.mpr hb), if_neg (not_le.mpr hlt)]
    split
    · exact ⟨0, rfl⟩
    · exact ⟨_, rfl⟩

/-- Witness for amended claim C5 at concrete inputs exercising each
sentinel. -/
theorem claim_C5_fastmath_sentinels_witness :
    fast_log2 (-1) = FV.neginf ∧
    VerifyFastPow.fast_exp2 (-200) = FV.fin 0 ∧
    VerifyFastPow.fast_exp2 130 = FV.posinf ∧
    VerifyFastPow.fast_pow (-2) 3 = FV.fin 0 ∧
    ((∃ q, VerifyFastPow.fast_pow 2 3 = FV.fin q) ∨
      VerifyFastPow.fast_pow 2 3 = FV.posinf) :=
  ⟨claim_C5_fastmath_sentinels.1 (-1) (by norm_num),
   claim_C5_fastmath_sentinels.2.2.1 (-200) (by norm_num),
   claim_C5_fastmath_sentinels.2.2.2.1 130 (by norm_num),
   claim_C5_fastmath_sentinels.2.2.2.2.2.1 (-2) 3 (by norm_num),
   claim_C5_fastmath_sentinels.2.2.2.2.2.2.1 2 3 (by norm_num)⟩

/-- Counterexample to claim C5 as stated: fast_pow does not return a
finite value for every positive base; at base 1 and exponent 2^30 it
returns the +inf sentinel, because the polynomial log2 value of 1 is
about 1.25e-5 (not exactly 0) and 2^30 times that exceeds the exp2 range
bound 128. -/
theorem claim_C5_counterexample :
    VerifyFastPow.fast_pow 1 1073741824 = FV.posinf ∧
    ¬ ∃ q : ℚ, VerifyFastPow.fast_pow 1 1073741824 = FV.fin q := by
  have hlog : log2core 1 = polyLog 1 := by
    unfold log2core mantissa floatExp
    rw [Int.log_one_right]
    norm_num
  have h : VerifyFastPow.fast_pow 1 1073741824 = FV.posinf := by
    unfold VerifyFastPow.fast_pow VerifyFastPow.fast_exp2
    rw [if_neg (by norm_num), hlog]
    rw [if_neg (by
      unfold polyLog PNLOG0 PNLOG1 PNLOG2 PNLOG3 PNLOG4 PNLOG5
      norm_num)]
    rw [if_pos (by
      unfold polyLog PNLOG0 PNLOG1 PNLOG2 PNLOG3 PNLOG4 PNLOG5
      norm_num)]
  exact ⟨h, by
    rintro ⟨q, hq⟩
    rw [h] at hq
    exact FV.noConfusion hq⟩

/-- Claim C2 at its failing input (the code bug): the fast_exp2 embedding
of verify_cdl_final.py computes the floor of a negative integer input
incorrectly.  At x = -3 it computes floor_x = -4 (the Python int of -3 is
-3, and the script always subtracts 1 for negative x), although the
mathematical floor used by verify_fast_pow.py is -3, so the two
embeddings return different values there. -/
theorem claim_C2_floor_divergence :
    VerifyCdlFinal.floorB (-3) = -4 ∧ ⌊(-3 : ℚ)⌋ = -3 ∧
    VerifyCdlFinal.fast_exp2 (-3) ≠ VerifyFastPow.fast_exp2 (-3) := by
  have hfloor : ⌊(-3 : ℚ)⌋ = -3 := by
    rw [show ((-3 : ℚ)) = ((-3 : ℤ) : ℚ) by norm_num, Int.floor_intCast]
  have hceil : ⌈(-3 : ℚ)⌉ = -3 := by
    rw [show ((-3 : ℚ)) = ((-3 : ℤ) : ℚ) by norm_num, Int.ceil_intCast]
  have hB : VerifyCdlFinal.floorB (-3) = -4 := by
    unfold VerifyCdlFinal.floorB VerifyCdlFinal.pyInt
    rw [if_neg (by norm_num), if_neg (by norm_num), hceil]
    norm_num
  refine ⟨hB, hfloor, ?_⟩
  intro hc
  unfold VerifyCdlFinal.fast_exp2 VerifyFastPow.fast_exp2 at hc
  rw [if_neg (by norm_num), if_neg (by norm_num), if_neg (by norm_num),
    if_neg (by norm_num), hB, hfloor] at hc
  simp only [FV.fin.injEq] at hc
  rw [show ((-4 : ℤ) : ℚ) = -4 by norm_num, show ((-3 : ℤ) : ℚ) = -3 by norm_num] at hc
  unfold zfOfExp at hc
  rw [if_neg (by norm_num), if_neg (by norm_num)] at hc
  unfold polyExp PNEXP0 PNEXP1 PNEXP2 PNEXP3 PNEXP4 at hc
  norm_num at hc

namespace CompareCdl

/-- The pre-power numpy clip of apply_cdl_rust_style. -/
def clip01q (v : ℚ) : ℚ := max 0 (min 1 v)

/-- One slope-offset-power channel of apply_cdl_rust_style in
compare_cdl.py: multiply by the slope, add the offset, clip to the unit
interval, then raise to the power with the built-in float power operator
(modelled by the real power function). -/
noncomputable def sopChannelR (x s o p : ℚ) : ℝ :=
  ((clip01q (x * s + o) : ℚ) : ℝ) ^ ((p : ℚ) : ℝ)

/-- The luma of apply_cdl_rust_style. -/
def lumaR (r g b : ℝ) : ℝ := 0.2126 * r + 0.7152 * g + 0.0722 * b

/-- The saturation stage of apply_cdl_rust_style. -/
def satStageR (sat : ℚ) (r g b : ℝ) : ℝ × ℝ × ℝ :=
  (lumaR r g b + (r - lumaR r g b) * (sat : ℝ),
   lumaR r g b + (g - lumaR r g b) * (sat : ℝ),
   lumaR r g b + (b - lumaR r g b) * (sat : ℝ))

/-- The saturation branch of apply_cdl_rust_style: the saturation stage
runs only when the saturation differs from 1 by more than 1e-6. -/
noncomputable def satSwitchR (sat : ℚ) (t : ℝ × ℝ × ℝ) : ℝ × ℝ × ℝ :=
  if |sat - 1| > 1e-6 then satStageR sat t.1 t.2.1 t.2.2 else t

/-- The final numpy clip of apply_cdl_rust_style. -/
def clip01R (x : ℝ) : ℝ := max 0 (min 1 x)

/-- The final clamp stage of apply_cdl_rust_style. -/
def clipStageR (t : ℝ × ℝ × ℝ) : ℝ × ℝ × ℝ :=
  (clip01R t.1, clip01R t.2.1, clip01R t.2.2)

/-- The apply_cdl_rust_style function of compare_cdl.py on one pixel. -/
noncomputable def apply_cdl_rust_style (slope offset power : ℚ × ℚ × ℚ)
    (sat : ℚ) (px : ℚ × ℚ × ℚ) : ℝ × ℝ × ℝ :=
  clipStageR (satSwitchR sat
    (sopChannelR px.1 slope.1 offset.1 power.1,
     sopChannelR px.2.1 slope.2.1 offset.2.1 power.2.1,
     sopChannelR px.2.2 slope.2.2 offset.2.2 power.2.2))

/-- The float value of the first embedding equals the real value of the
second: it holds exactly when the first is finite with the same value. -/
def FVeqR : FV → ℝ → Prop
  | FV.fin q, x => (q : ℝ) = x
  | _, _ => False

/-- The two CDL embeddings agree channelwise at the given pixel and
parameter set. -/
def cdlAgrees (slope offset power : ℚ × ℚ × ℚ) (sat : ℚ)
    (px : ℚ × ℚ × ℚ) : Prop :=
  FVeqR (VerifyCdlFinal.apply_cdl_manual px slope offset power sat).1
      (apply_cdl_rust_style slope offset power sat px).1 ∧
  FVeqR (VerifyCdlFinal.apply_cdl_manual px slope offset power sat).2.1
      (apply_cdl_rust_style slope offset power sat px).2.1 ∧
  FVeqR (VerifyCdlFinal.apply_cdl_manual px slope offset power sat).2.2
      (apply_cdl_rust_style slope offset power sat px).2.2

end CompareCdl

/-- Amended claim C10: the two CDL embeddings (apply_cdl_manual of
verify_cdl_final.py and apply_cdl_rust_style of compare_cdl.py) compute
the same function whenever the power is the identity (1, 1, 1) and the
saturation does not fall between the two inconsistent skip thresholds,
that is when the distance of the saturation from 1 is either at most 1e-9
or greater than 1e-6.  In the gap between the thresholds the two
embeddings differ (see the counterexample), so the claim as stated is
false: the CDL operator does not use one fixed saturation epsilon. -/
theorem claim_C10_cdl_embeddings_agree (slope offset : ℚ × ℚ × ℚ) (sat : ℚ)
    (px : ℚ × ℚ × ℚ)
    (hsat : |sat - 1| ≤ 1e-9 ∨ 1e-6 < |sat - 1|) :
    CompareCdl.cdlAgrees slope offset (1, 1, 1) sat px := by
  have hsop : ∀ x s o : ℚ, VerifyCdlFinal.sopChannel x s o 1 =
      FV.fin (VerifyCdlFinal.clamp01 (x * s + o)) := by
    intro x s o
    unfold VerifyCdlFinal.sopChannel
    rw [if_neg (by norm_num)]
  have hsopR : ∀ x s o : ℚ, CompareCdl.sopChannelR x s o 1 =
      ((VerifyCdlFinal.clamp01 (x * s + o) : ℚ) : ℝ) := by
    intro x s o
    unfold CompareCdl.sopChannelR
    rw [Rat.cast_one, Real.rpow_one]
    rfl
  unfold CompareCdl.cdlAgrees VerifyCdlFinal.apply_cdl_manual
    CompareCdl.apply_cdl_rust_style
  rw [hsop, hsop, hsop, hsopR, hsopR, hsopR]
  rcases hsat with hs | hs
  · have h9 : ¬(|sat - 1| > 1e-9) := not_lt.mpr hs
    have h6 : ¬(|sat - 1| > 1e-6) := not_lt.mpr (hs.trans (by norm_num))
    unfold VerifyCdlFinal.satSwitch CompareCdl.satSwitchR
    rw [if_neg h9, if_neg h6]
    refine ⟨?_, ?_, ?_⟩ <;>
    · show ((max 0 (min 1 _) : ℚ) : ℝ) = CompareCdl.clip01R _
      unfold CompareCdl.clip01R
      push_cast
      rfl
  · have h9 : |sat - 1| > 1e-9 := lt_trans (by norm_num) hs
    unfold VerifyCdlFinal.satSwitch CompareCdl.satSwitchR
    rw [if_pos h9, if_pos hs, VerifyCdlFinal.satStage_fin]
    have hcast : ∀ a b c d : ℚ,
        ((a * VerifyCdlFinal.LUMA_R + b * VerifyCdlFinal.LUMA_G +
            c * VerifyCdlFinal.LUMA_B +
            sat * (d - (a * VerifyCdlFinal.LUMA_R + b * VerifyCdlFinal.LUMA_G +
              c * VerifyCdlFinal.LUMA_B)) : ℚ) : ℝ) =
          CompareCdl.lumaR (a : ℝ) (b : ℝ) (c : ℝ) +
            ((d : ℝ) - CompareCdl.lumaR (a : ℝ) (b : ℝ) (c : ℝ)) * (sat : ℝ) := by
      intro a b c d
      unfold CompareCdl.lumaR VerifyCdlFinal.LUMA_R VerifyCdlFinal.LUMA_G
        VerifyCdlFinal.LUMA_B
      push_cast
      ring
    refine ⟨?_, ?_, ?_⟩ <;>
    · show ((max 0 (min 1 _) : ℚ) : ℝ) = CompareCdl.clip01R _
      unfold CompareCdl.clip01R CompareCdl.satStageR
      rw [Rat.cast_max, Rat.cast_min, Rat.cast_zero, Rat.cast_one, hcast]

/-- Witness for amended claim C10 at a concrete pixel with saturation 1. -/
theorem claim_C10_cdl_embeddings_agree_witness :
    (|(1 : ℚ) - 1| ≤ 1e-9 ∨ (1e-6 : ℚ) < |(1 : ℚ) - 1|) ∧
    CompareCdl.cdlAgrees (1, 1, 1) (0, 0, 0) (1, 1, 1) 1 (1/2, 1/3, 1/4) :=
  ⟨Or.inl (by norm_num),
    claim_C10_cdl_embeddings_agree (1, 1, 1) (0, 0, 0) 1 (1/2, 1/3, 1/4)
      (Or.inl (by norm_num))⟩

/-- Counterexample to claim C10 as stated: at saturation 1 + 1e-7, which
lies between the two skip thresholds, apply_cdl_manual applies the
saturation stage (its threshold is 1e-9) while apply_cdl_rust_style skips
it (its threshold is 1e-6), so on the pixel (1/2, 0, 0) with identity
slope, offset and power the red channels differ: 0.50000003937 against
0.5.  The two embeddings therefore do not compute the same function. -/
theorem claim_C10_counterexample :
    ¬ CompareCdl.cdlAgrees (1, 1, 1) (0, 0, 0) (1, 1, 1) (1 + 1e-7)
      (1/2, 0, 0) := by
  have hsopa : VerifyCdlFinal.sopChannel (1/2) 1 0 1 = FV.fin (1/2) := by
    unfold VerifyCdlFinal.sopChannel
    rw [if_neg (by norm_num)]
    unfold VerifyCdlFinal.clamp01
    norm_num
  have hsopb : VerifyCdlFinal.sopChannel 0 1 0 1 = FV.fin 0 := by
    unfold VerifyCdlFinal.sopChannel
    rw [if_neg (by norm_num)]
    unfold VerifyCdlFinal.clamp01
    norm_num
  have habs : |(1 + 1e-7 - 1 : ℚ)| = 1e-7 := by
    rw [show (1 + 1e-7 - 1 : ℚ) = 1e-7 by norm_num]
    exact abs_of_pos (by norm_num)
  have hman : (VerifyCdlFinal.apply_cdl_manual (1/2, 0, 0) (1, 1, 1) (0, 0, 0)
      (1, 1, 1) (1 + 1e-7)).1 = FV.fin (50000003937 / 100000000000) := by
    unfold VerifyCdlFinal.apply_cdl_manual VerifyCdlFinal.satSwitch
    rw [hsopa, hsopb]
    rw [if_pos (by rw [habs]; norm_num), VerifyCdlFinal.satStage_fin]
    show FV.fin _ = _
    rw [FV.fin.injEq]
    unfold VerifyCdlFinal.LUMA_R VerifyCdlFinal.LUMA_G VerifyCdlFinal.LUMA_B
    norm_num
  have hrust : (CompareCdl.apply_cdl_rust_style (1, 1, 1) (0, 0, 0) (1, 1, 1)
      (1 + 1e-7) (1/2, 0, 0)).1 = (1/2 : ℝ) := by
    unfold CompareCdl.apply_cdl_rust_style CompareCdl.satSwitchR
    rw [if_neg (by rw [habs]; norm_num)]
    show CompareCdl.clip01R (CompareCdl.sopChannelR (1/2) 1 0 1) = _
    unfold CompareCdl.sopChannelR
    rw [Rat.cast_one, Real.rpow_one]
    rw [show ((CompareCdl.clip01q ((1/2 : ℚ) * 1 + 0) : ℚ) : ℝ) = (1/2 : ℝ) by
      unfold CompareCdl.clip01q
      push_cast
      norm_num]
    unfold CompareCdl.clip01R
    norm_num
  intro h
  obtain ⟨h1, -, -⟩ := h
  rw [hman, hrust] at h1
  have h2 : ((50000003937 / 100000000000 : ℚ) : ℝ) = (1/2 : ℝ) := h1
  norm_num at h2

namespace VerifyLut3d

/-- Corner fetch of verify_lut3d.py: flat index 3 * (b + size * (g + size * r))
plus the channel, the blue-fastest flattening order. -/
def getc (lut : ℕ → ℚ) (size ri gi bi ch : ℕ) : ℚ :=
  lut (3 * (bi + size * (gi + size * ri)) + ch)

/-- The numpy clip of an input channel to the unit interval. -/
def clipc (v : ℚ) : ℚ := max 0 (min 1 v)

/-- Grid cell index of a clamped channel value v over n = size - 1
subintervals: the Python int of min(v * n, n - 1). -/
def gridIdx (n : ℕ) (v : ℚ) : ℕ :=
  (VerifyCdlFinal.pyInt (min (v * n) ((n : ℚ) - 1))).toNat

/-- Fractional coordinate of a clamped channel value inside its grid
cell: v * n minus the cell index. -/
def fracPart (n : ℕ) (v : ℚ) : ℚ := v * n - gridIdx n v

/-- The eight fetched corners of the cell, numbered with the red offset
as bit 2, the green offset as bit 1 and the blue offset as bit 0. -/
def corners (lut : ℕ → ℚ) (size ri gi bi ch : ℕ) : Fin 8 → ℚ
  | 0 => getc lut size ri gi bi ch
  | 1 => getc lut size ri gi (bi + 1) ch
  | 2 => getc lut size ri (gi + 1) bi ch
  | 3 => getc lut size ri (gi + 1) (bi + 1) ch
  | 4 => getc lut size (ri + 1) gi bi ch
  | 5 => getc lut size (ri + 1) gi (bi + 1) ch
  | 6 => getc lut size (ri + 1) (gi + 1) bi ch
  | 7 => getc lut size (ri + 1) (gi + 1) (bi + 1) ch

/-- The tetrahedral interpolation core of apply_rust_style_tetrahedral,
with the six nested branches exactly as in the source (corner c000 is
c 0, c001 is c 1, c010 is c 2, c011 is c 3, c100 is c 4, c101 is c 5,
c110 is c 6, c111 is c 7). -/
def tetraCore (c : Fin 8 → ℚ) (rf gf bf : ℚ) : ℚ :=
  if rf > gf then
    if gf > bf then
      c 0 + rf * (c 4 - c 0) + gf * (c 6 - c 4) + bf * (c 7 - c 6)
    else if rf > bf then
      c 0 + rf * (c 4 - c 0) + bf * (c 5 - c 4) + gf * (c 7 - c 5)
    else
      c 0 + bf * (c 1 - c 0) + rf * (c 5 - c 1) + gf * (c 7 - c 5)
  else
    if bf > gf then
      c 0 + bf * (c 1 - c 0) + gf * (c 3 - c 1) + rf * (c 7 - c 3)
    else if bf > rf then
      c 0 + gf * (c 2 - c 0) + bf * (c 3 - c 2) + rf * (c 7 - c 3)
    else
      c 0 + gf * (c 2 - c 0) + rf * (c 6 - c 2) + bf * (c 7 - c 6)

/-- The trilinear interpolation core of apply_rust_style_trilinear: the
blue axis is interpolated first, then green, then red, exactly as in the
source. -/
def trilinCore (c : Fin 8 → ℚ) (rf gf bf : ℚ) : ℚ :=
  ((c 0 * (1 - bf) + c 1 * bf) * (1 - gf) + (c 2 * (1 - bf) + c 3 * bf) * gf) * (1 - rf)
  + ((c 4 * (1 - bf) + c 5 * bf) * (1 - gf) + (c 6 * (1 - bf) + c 7 * bf) * gf) * rf

/-- One output channel of apply_rust_style_tetrahedral. -/
def tetraPixel (lut : ℕ → ℚ) (size : ℕ) (px : ℚ × ℚ × ℚ) (ch : ℕ) : ℚ :=
  tetraCore
    (corners lut size
      (gridIdx (size - 1) (clipc px.1))
      (gridIdx (size - 1) (clipc px.2.1))
      (gridIdx (size - 1) (clipc px.2.2)) ch)
    (fracPart (size - 1) (clipc px.1))
    (fracPart (size - 1) (clipc px.2.1))
    (fracPart (size - 1) (clipc px.2.2))

/-- The apply_rust_style_tetrahedral function of verify_lut3d.py on one
pixel. -/
def apply_rust_style_tetrahedral (lut : ℕ → ℚ) (size : ℕ)
    (px : ℚ × ℚ × ℚ) : ℚ × ℚ × ℚ :=
  (tetraPixel lut size px 0, tetraPixel lut size px 1, tetraPixel lut size px 2)

/-- One output channel of apply_rust_style_trilinear. -/
def trilinPixel (lut : ℕ → ℚ) (size : ℕ) (px : ℚ × ℚ × ℚ) (ch : ℕ) : ℚ :=
  trilinCore
    (corners lut size
      (gridIdx (size - 1) (clipc px.1))
      (gridIdx (size - 1) (clipc px.2.1))
      (gridIdx (size - 1) (clipc px.2.2)) ch)
    (fracPart (size - 1) (clipc px.1))
    (fracPart (size - 1) (clipc px.2.1))
    (fracPart (size - 1) (clipc px.2.2))

/-- The apply_rust_style_trilinear function of verify_lut3d.py on one
pixel. -/
def apply_rust_style_trilinear (lut : ℕ → ℚ) (size : ℕ)
    (px : ℚ × ℚ × ℚ) : ℚ × ℚ × ℚ :=
  (trilinPixel lut size px 0, trilinPixel lut size px 1, trilinPixel lut size px 2)

/-- The six flat branch conditions of the claim, in source order: the
first three split the region rf > gf by gf > bf and rf > bf, the last
three split the region rf <= gf by bf > gf and bf > rf. -/
def tetraCond : Fin 6 → ℚ → ℚ → ℚ → Prop
  | 0, rf, gf, bf => rf > gf ∧ gf > bf
  | 1, rf, gf, bf => rf > gf ∧ gf ≤ bf ∧ rf > bf
  | 2, rf, gf, bf => rf > gf ∧ bf ≥ rf
  | 3, rf, gf, bf => rf ≤ gf ∧ bf > gf
  | 4, rf, gf, bf => rf ≤ gf ∧ bf ≤ gf ∧ bf > rf
  | 5, rf, gf, bf => rf ≤ gf ∧ bf ≤ rf

/-- The set of the four corners each branch reads. -/
def tetraCorners : Fin 6 → Finset (Fin 8)
  | 0 => {0, 4, 6, 7}
  | 1 => {0, 4, 5, 7}
  | 2 => {0, 1, 5, 7}
  | 3 => {0, 1, 3, 7}
  | 4 => {0, 2, 3, 7}
  | 5 => {0, 2, 6, 7}

end VerifyLut3d

/-- The six tetrahedral branch conditions are mutually exclusive and
exhaustive (claim C6): for every fraction triple exactly one of the six
conditions holds, every branch names exactly 4 of the 8 fetched corners,
and under each condition the tetrahedral interpolation depends only on
those 4 corners. -/
theorem claim_C6_tetra_branches (rf gf bf : ℚ) :
    (∃! i : Fin 6, VerifyLut3d.tetraCond i rf gf bf) ∧
    (∀ i : Fin 6, (VerifyLut3d.tetraCorners i).card = 4) ∧
    (∀ i : Fin 6, VerifyLut3d.tetraCond i rf gf bf →
      ∀ c c' : Fin 8 → ℚ, (∀ j ∈ VerifyLut3d.tetraCorners i, c j = c' j) →
        VerifyLut3d.tetraCore c rf gf bf = VerifyLut3d.tetraCore c' rf gf bf) := by
  refine ⟨?_, ?_, ?_⟩
  · rcases lt_or_le gf rf with h1 | h1
    · rcases lt_or_le bf gf with h2 | h2
      · refine ⟨0, ⟨h1, h2⟩, ?_⟩
        intro j hj
        fin_cases j
        · rfl
        · exact absurd hj.2.1 (not_le.mpr h2)
        · exact absurd hj.2 (not_le.mpr (h2.trans h1))
        · exact absurd hj.1 (not_le.mpr h1)
        · exact absurd hj.1 (not_le.mpr h1)
        · exact absurd hj.1 (not_le.mpr h1)
      · rcases lt_or_le bf rf with h3 | h3
        · refine ⟨1, ⟨h1, h2, h3⟩, ?_⟩
          intro j hj
          fin_cases j
          · exact absurd hj.2 (not_lt.mpr h2)
          · rfl
          · exact absurd hj.2 (not_le.mpr h3)
          · exact absurd hj.1 (not_le.mpr h1)
          · exact absurd hj.1 (not_le.mpr h1)
          · exact absurd hj.1 (not_le.mpr h1)
        · refine ⟨2, ⟨h1, h3⟩, ?_⟩
          intro j hj
          fin_cases j
          · exact absurd hj.2 (not_lt.mpr h2)
          · exact absurd hj.2.2 (not_lt.mpr h3)
          · rfl
          · exact absurd hj.1 (not_le.mpr h1)
          · exact absurd hj.1 (not_le.mpr h1)
          · exact absurd hj.1 (not_le.mpr h1)
    · rcases lt_or_le gf bf with h2 | h2
      · refine ⟨3, ⟨h1, h2⟩, ?_⟩
        intro j hj
        fin_cases j
        · exact absurd hj.1 (not_lt.mpr h1)
        · exact absurd hj.1 (not_lt.mpr h1)
        · exact absurd hj.1 (not_lt.mpr h1)
        · rfl
        · exact absurd hj.2.1 (not_le.mpr h2)
        · exact absurd hj.2 (not_le.mpr (lt_of_le_of_lt h1 h2))
      · rcases lt_or_le rf bf with h3 | h3
        · refine ⟨4, ⟨h1, h2, h3⟩, ?_⟩
          intro j hj
          fin_cases j
          · exact absurd hj.1 (not_lt.mpr h1)
          · exact absurd hj.1 (not_lt.mpr h1)
          · exact absurd hj.1 (not_lt.mpr h1)
          · exact absurd hj.2 (not_lt.mpr h2)
          · rfl
          · exact absurd hj.2 (not_le.mpr h3)
        · refine ⟨5, ⟨h1, h3⟩, ?_⟩
          intro j hj
          fin_cases j
          · exact absurd hj.1 (not_lt.mpr h1)
          · exact absurd hj.1 (not_lt.mpr h1)
          · exact absurd hj.1 (not_lt.mpr h1)
          · exact absurd hj.2 (not_lt.mpr h2)
          · exact absurd hj.2.2 (not_lt.mpr h3)
          · rfl
  · intro i
    fin_cases i <;> decide
  · intro i hi c c' hcc
    fin_cases i
    · obtain ⟨h1, h2⟩ := hi
      unfold VerifyLut3d.tetraCore
      rw [if_pos h1, if_pos h2, if_pos h1, if_pos h2,
        hcc 0 (by decide), hcc 4 (by decide), hcc 6 (by decide), hcc 7 (by decide)]
    · obtain ⟨h1, h2, h3⟩ := hi
      unfold VerifyLut3d.tetraCore
      rw [if_pos h1, if_neg (not_lt.mpr h2), if_pos h3,
        if_pos h1, if_neg (not_lt.mpr h2), if_pos h3,
        hcc 0 (by decide), hcc 4 (by decide), hcc 5 (by decide), hcc 7 (by decide)]
    · obtain ⟨h1, h2⟩ := hi
      have hgb : gf ≤ bf := le_of_lt (lt_of_lt_of_le h1 h2)
      unfold VerifyLut3d.tetraCore
      rw [if_pos h1, if_neg (not_lt.mpr hgb), if_neg (not_lt.mpr h2),
        if_pos h1, if_neg (not_lt.mpr hgb), if_neg (not_lt.mpr h2),
        hcc 0 (by decide), hcc 1 (by decide), hcc 5 (by decide), hcc 7 (by decide)]
    · obtain ⟨h1, h2⟩ := hi
      unfold VerifyLut3d.tetraCore
      rw [if_neg (not_lt.mpr h1), if_pos h2, if_neg (not_lt.mpr h1), if_pos h2,
        hcc 0 (by decide), hcc 1 (by decide), hcc 3 (by decide), hcc 7 (by decide)]
    · obtain ⟨h1, h2, h3⟩ := hi
      unfold VerifyLut3d.tetraCore
      rw [if_neg (not_lt.mpr h1), if_neg (not_lt.mpr h2), if_pos h3,
        if_neg (not_lt.mpr h1), if_neg (not_lt.mpr h2), if_pos h3,
        hcc 0 (by decide), hcc 2 (by decide), hcc 3 (by decide), hcc 7 (by decide)]
    · obtain ⟨h1, h2⟩ := hi
      have hbg : bf ≤ gf := h2.trans h1
      unfold VerifyLut3d.tetraCore
      rw [if_neg (not_lt.mpr h1), if_neg (not_lt.mpr hbg), if_neg (not_lt.mpr h2),
        if_neg (not_lt.mpr h1), if_neg (not_lt.mpr hbg), if_neg (not_lt.mpr h2),
        hcc 0 (by decide), hcc 2 (by decide), hcc 6 (by decide), hcc 7 (by decide)]

/-- Witness for claim C6 at the concrete fraction triple (1/2, 1/3, 1/4),
which selects the first branch. -/
theorem claim_C6_tetra_branches_witness :
    VerifyLut3d.tetraCond 0 (1/2) (1/3) (1/4) ∧
    (VerifyLut3d.tetraCorners 0).card = 4 :=
  ⟨show (1/2 : ℚ) > 1/3 ∧ (1/3 : ℚ) > 1/4 from ⟨by norm_num, by norm_num⟩,
    (claim_C6_tetra_branches (1/2) (1/3) (1/4)).2.1 0⟩

namespace VerifyLut3d

/-- The identity LUT of grid size N of the claim: the entry at grid
coordinate (r, g, b) is (r, g, b) divided by N - 1, stored in the
blue-fastest flattened order with 3 channels per entry. -/
def identityLut (N : ℕ) : ℕ → ℚ := fun idx =>
  (if idx % 3 = 0 then ((idx / 3 / N / N : ℕ) : ℚ)
   else if idx % 3 = 1 then ((idx / 3 / N % N : ℕ) : ℚ)
   else ((idx / 3 % N : ℕ) : ℚ)) / ((N - 1 : ℕ) : ℚ)

/-- The 0 or 1 offset of a cell corner as a natural number. -/
def bitn : Bool → ℕ
  | true => 1
  | false => 0

/-- The 0 or 1 offset of a cell corner as a rational fraction. -/
def bitq : Bool → ℚ
  | true => 1
  | false => 0

/-- A corner fetch on the identity LUT returns the grid coordinate of the
selected axis divided by N - 1. -/
theorem identity_getc (N ri gi bi ch : ℕ) (hr : ri < N) (hg : gi < N)
    (hb : bi < N) (hch : ch < 3) :
    getc (identityLut N) N ri gi bi ch =
      (if ch = 0 then (ri : ℚ) else if ch = 1 then (gi : ℚ) else (bi : ℚ)) /
        ((N - 1 : ℕ) : ℚ) := by
  have hN0 : 0 < N := lt_of_le_of_lt (Nat.zero_le bi) hb
  have hmod : (3 * (bi + N * (gi + N * ri)) + ch) % 3 = ch := by
    rw [Nat.mul_add_mod, Nat.mod_eq_of_lt hch]
  have hdiv : (3 * (bi + N * (gi + N * ri)) + ch) / 3 = bi + N * (gi + N * ri) := by
    rw [Nat.mul_add_div (by norm_num), Nat.div_eq_of_lt hch, Nat.add_zero]
  have hXmod : (bi + N * (gi + N * ri)) % N = bi := by
    rw [Nat.add_mul_mod_self_left, Nat.mod_eq_of_lt hb]
  have hXdiv : (bi + N * (gi + N * ri)) / N = gi + N * ri := by
    rw [Nat.add_mul_div_left _ _ hN0, Nat.div_eq_of_lt hb, Nat.zero_add]
  have hYmod : (gi + N * ri) % N = gi := by
    rw [Nat.add_mul_mod_self_left, Nat.mod_eq_of_lt hg]
  have hYdiv : (gi + N * ri) / N = ri := by
    rw [Nat.add_mul_div_left _ _ hN0, Nat.div_eq_of_lt hg, Nat.zero_add]
  unfold getc identityLut
  rw [hmod, hdiv, hXmod, hXdiv, hYmod, hYdiv]

/-- Grid data of an exact grid-point coordinate i over n subintervals:
the clamp is the identity, and the cell index plus corner bit recovers i
while the fraction is the bit (0 inside the grid, 1 at the top corner). -/
theorem axis_grid (n i : ℕ) (hn : 1 ≤ n) (hi : i ≤ n) :
    clipc ((i : ℚ) / (n : ℚ)) = (i : ℚ) / (n : ℚ) ∧
    ∃ d : Bool,
      gridIdx n ((i : ℚ) / (n : ℚ)) + bitn d = i ∧
      fracPart n ((i : ℚ) / (n : ℚ)) = bitq d ∧
      gridIdx n ((i : ℚ) / (n : ℚ)) + 1 ≤ n := by
  have hn0 : (0 : ℚ) < (n : ℚ) := by exact_mod_cast lt_of_lt_of_le Nat.zero_lt_one hn
  have hv0 : 0 ≤ (i : ℚ) / (n : ℚ) := div_nonneg (Nat.cast_nonneg i) (le_of_lt hn0)
  have hv1 : (i : ℚ) / (n : ℚ) ≤ 1 := by
    rw [div_le_one hn0]
    exact_mod_cast hi
  have hclip : clipc ((i : ℚ) / (n : ℚ)) = (i : ℚ) / (n : ℚ) := by
    unfold clipc
    rw [min_eq_right hv1, max_eq_right hv0]
  have hvn : (i : ℚ) / (n : ℚ) * (n : ℚ) = (i : ℚ) :=
    div_mul_cancel₀ _ (ne_of_gt hn0)
  refine ⟨hclip, ?_⟩
  rcases lt_or_eq_of_le hi with hlt | heq
  · refine ⟨false, ?_, ?_, ?_⟩
    · have hmin : min ((i : ℚ) / (n : ℚ) * (n : ℚ)) ((n : ℚ) - 1) = (i : ℚ) := by
        rw [hvn]
        refine min_eq_left ?_
        have : (i : ℚ) + 1 ≤ (n : ℚ) := by exact_mod_cast hlt
        linarith
      unfold gridIdx VerifyCdlFinal.pyInt
      rw [hmin, if_pos (Nat.cast_nonneg i), Int.floor_natCast]
      simp [bitn]
    · have hg : gridIdx n ((i : ℚ) / (n : ℚ)) = i := by
        have hmin : min ((i : ℚ) / (n : ℚ) * (n : ℚ)) ((n : ℚ) - 1) = (i : ℚ) := by
          rw [hvn]
          refine min_eq_left ?_
          have : (i : ℚ) + 1 ≤ (n : ℚ) := by exact_mod_cast hlt
          linarith
        unfold gridIdx VerifyCdlFinal.pyInt
        rw [hmin, if_pos (Nat.cast_nonneg i), Int.floor_natCast]
        simp
      unfold fracPart
      rw [hg, hvn]
      simp [bitq]
    · have hg : gridIdx n ((i : ℚ) / (n : ℚ)) = i := by
        have hmin : min ((i : ℚ) / (n : ℚ) * (n : ℚ)) ((n : ℚ) - 1) = (i : ℚ) := by
          rw [hvn]
          refine min_eq_left ?_
          have : (i : ℚ) + 1 ≤ (n : ℚ) := by exact_mod_cast hlt
          linarith
        unfold gridIdx VerifyCdlFinal.pyInt
        rw [hmin, if_pos (Nat.cast_nonneg i), Int.floor_natCast]
        simp
      rw [hg]
      exact hlt
  · have h1q : (1 : ℚ) ≤ (n : ℚ) := by exact_mod_cast hn
    have hcast : ((n - 1 : ℕ) : ℚ) = (n : ℚ) - 1 := by
      push_cast [Nat.cast_sub hn]
      ring
    have hg : gridIdx n ((i : ℚ) / (n : ℚ)) = n - 1 := by
      have hmin : min ((i : ℚ) / (n : ℚ) * (n : ℚ)) ((n : ℚ) - 1) = (n : ℚ) - 1 := by
        rw [hvn, heq]
        exact min_eq_right (by linarith)
      unfold gridIdx VerifyCdlFinal.pyInt
      rw [hmin, if_pos (by linarith), ← hcast, Int.floor_natCast]
      simp
    refine ⟨true, ?_, ?_, ?_⟩
    · rw [hg, show bitn true = 1 from rfl, heq]
      omega
    · unfold fracPart
      rw [hg, hvn, heq, hcast]
      unfold bitq
      ring
    · rw [hg]
      omega

/-- With binary fractions, the trilinear interpolation collapses to the
single fetched corner selected by the three bits. -/
theorem trilin_binary (lut : ℕ → ℚ) (size ri gi bi ch : ℕ) (dr dg db : Bool) :
    trilinCore (corners lut size ri gi bi ch) (bitq dr) (bitq dg) (bitq db) =
      getc lut size (ri + bitn dr) (gi + bitn dg) (bi + bitn db) ch := by
  cases dr <;> cases dg <;> cases db <;>
    · simp only [bitq, bitn, Nat.add_zero]
      unfold trilinCore
      simp only [corners]
      ring

/-- With binary fractions, the tetrahedral interpolation collapses to the
single fetched corner selected by the three bits. -/
theorem tetra_binary (lut : ℕ → ℚ) (size ri gi bi ch : ℕ) (dr dg db : Bool) :
    tetraCore (corners lut size ri gi bi ch) (bitq dr) (bitq dg) (bitq db) =
      getc lut size (ri + bitn dr) (gi + bitn dg) (bi + bitn db) ch := by
  cases dr <;> cases dg <;> cases db <;>
    · simp only [bitq, bitn, Nat.add_zero]
      unfold tetraCore
      simp only [corners]
      norm_num

end VerifyLut3d

/-- Identity LUT fixed points (claim C7): for every grid size N of at
least 2 and every exact grid-point input color, both the trilinear and
the tetrahedral interpolator of verify_lut3d.py return the input color
unchanged on the identity LUT. -/
theorem claim_C7_identity_lut (N i j k : ℕ) (hN : 2 ≤ N)
    (hi : i ≤ N - 1) (hj : j ≤ N - 1) (hk : k ≤ N - 1) :
    VerifyLut3d.apply_rust_style_trilinear (VerifyLut3d.identityLut N) N
        ((i : ℚ) / ((N - 1 : ℕ) : ℚ), (j : ℚ) / ((N - 1 : ℕ) : ℚ),
         (k : ℚ) / ((N - 1 : ℕ) : ℚ)) =
      ((i : ℚ) / ((N - 1 : ℕ) : ℚ), (j : ℚ) / ((N - 1 : ℕ) : ℚ),
       (k : ℚ) / ((N - 1 : ℕ) : ℚ)) ∧
    VerifyLut3d.apply_rust_style_tetrahedral (VerifyLut3d.identityLut N) N
        ((i : ℚ) / ((N - 1 : ℕ) : ℚ), (j : ℚ) / ((N - 1 : ℕ) : ℚ),
         (k : ℚ) / ((N - 1 : ℕ) : ℚ)) =
      ((i : ℚ) / ((N - 1 : ℕ) : ℚ), (j : ℚ) / ((N - 1 : ℕ) : ℚ),
       (k : ℚ) / ((N - 1 : ℕ) : ℚ)) := by
  have hn : 1 ≤ N - 1 := by omega
  obtain ⟨hclipI, dI, hgI, hfI, hbI⟩ := VerifyLut3d.axis_grid (N - 1) i hn hi
  obtain ⟨hclipJ, dJ, hgJ, hfJ, hbJ⟩ := VerifyLut3d.axis_grid (N - 1) j hn hj
  obtain ⟨hclipK, dK, hgK, hfK, hbK⟩ := VerifyLut3d.axis_grid (N - 1) k hn hk
  have hiN : i < N := by omega
  have hjN : j < N := by omega
  have hkN : k < N := by omega
  have hch : ∀ ch : ℕ, ch < 3 →
      VerifyLut3d.trilinPixel (VerifyLut3d.identityLut N) N
          ((i : ℚ) / ((N - 1 : ℕ) : ℚ), (j : ℚ) / ((N - 1 : ℕ) : ℚ),
           (k : ℚ) / ((N - 1 : ℕ) : ℚ)) ch =
        (if ch = 0 then (i : ℚ) else if ch = 1 then (j : ℚ) else (k : ℚ)) /
          ((N - 1 : ℕ) : ℚ) ∧
      VerifyLut3d.tetraPixel (VerifyLut3d.identityLut N) N
          ((i : ℚ) / ((N - 1 : ℕ) : ℚ), (j : ℚ) / ((N - 1 : ℕ) : ℚ),
           (k : ℚ) / ((N - 1 : ℕ) : ℚ)) ch =
        (if ch = 0 then (i : ℚ) else if ch = 1 then (j : ℚ) else (k : ℚ)) /
          ((N - 1 : ℕ) : ℚ) := by
    intro ch hch3
    unfold VerifyLut3d.trilinPixel VerifyLut3d.tetraPixel
    rw [hclipI, hclipJ, hclipK, hfI, hfJ, hfK,
      VerifyLut3d.trilin_binary, VerifyLut3d.tetra_binary, hgI, hgJ, hgK,
      VerifyLut3d.identity_getc N i j k ch hiN hjN hkN hch3]
    exact ⟨rfl, rfl⟩
  constructor
  · show (VerifyLut3d.trilinPixel _ _ _ 0, VerifyLut3d.trilinPixel _ _ _ 1,
      VerifyLut3d.trilinPixel _ _ _ 2) = _
    rw [(hch 0 (by norm_num)).1, (hch 1 (by norm_num)).1, (hch 2 (by norm_num)).1]
    norm_num
  · show (VerifyLut3d.tetraPixel _ _ _ 0, VerifyLut3d.tetraPixel _ _ _ 1,
      VerifyLut3d.tetraPixel _ _ _ 2) = _
    rw [(hch 0 (by norm_num)).2, (hch 1 (by norm_num)).2, (hch 2 (by norm_num)).2]
    norm_num

/-- Witness for claim C7 on a 3x3x3 identity LUT at the grid point
(1/2, 1, 0). -/
theorem claim_C7_identity_lut_witness :
    (2 ≤ 3 ∧ 1 ≤ 3 - 1 ∧ 2 ≤ 3 - 1 ∧ 0 ≤ 3 - 1) ∧
    VerifyLut3d.apply_rust_style_trilinear (VerifyLut3d.identityLut 3) 3
        ((1 : ℚ) / ((3 - 1 : ℕ) : ℚ), (2 : ℚ) / ((3 - 1 : ℕ) : ℚ),
         (0 : ℚ) / ((3 - 1 : ℕ) : ℚ)) =
      ((1 : ℚ) / ((3 - 1 : ℕ) : ℚ), (2 : ℚ) / ((3 - 1 : ℕ) : ℚ),
       (0 : ℚ) / ((3 - 1 : ℕ) : ℚ)) :=
  ⟨⟨by norm_num, by norm_num, by norm_num, by norm_num⟩,
    (claim_C7_identity_lut 3 1 2 0 (by norm_num) (by norm_num) (by norm_num)
      (by norm_num)).1⟩

namespace SpecLut1d

/-- Modelled from the spec: the Lut1D implementation is in the Rust crate
of the repository, which is absent from the source tree (only its parity
tests are present), so the apply algorithm is taken from the spec
sentence for Lut1D.apply.  This is the clamp of the input to the unit
interval. -/
def clampX (x : ℚ) : ℚ := max 0 (min 1 x)

/-- Modelled from the spec: idx = x * (size - 1) after the clamp. -/
def idxOf (size : ℕ) (x : ℚ) : ℚ := clampX x * ((size : ℚ) - 1)

/-- Modelled from the spec: low = floor(idx). -/
def lowOf (size : ℕ) (x : ℚ) : ℕ := (⌊idxOf size x⌋).toNat

/-- Modelled from the spec: high = min(low + 1, size - 1). -/
def highOf (size : ℕ) (x : ℚ) : ℕ := min (lowOf size x + 1) (size - 1)

/-- Modelled from the spec: frac = idx - low. -/
def fracOf (size : ℕ) (x : ℚ) : ℚ := idxOf size x - (lowOf size x : ℚ)

/-- Modelled from the spec: linear interpolation between two table
samples. -/
def lerp (a b t : ℚ) : ℚ := a + (b - a) * t

/-- Modelled from the spec: Lut1D.apply, the lerp of the low and high
table samples by the fraction. -/
def applyLut1d (t : List ℚ) (x : ℚ) : ℚ :=
  lerp (t.getD (lowOf t.length x) 0) (t.getD (highOf t.length x) 0)
    (fracOf t.length x)

end SpecLut1d

/-- Lut1D index safety and top-sample behavior (claim C8): for every
table of size at least 2 and every input x in the unit interval, the low
and high indices of Lut1D.apply are in bounds, and at x = 1 (where the
index x * (size - 1) is integral and high is clamped to size - 1) the
result is exactly the last table sample. -/
theorem claim_C8_lut1d_bounds (t : List ℚ) (x : ℚ) (hL : 2 ≤ t.length)
    (hx0 : 0 ≤ x) (hx1 : x ≤ 1) :
    (SpecLut1d.lowOf t.length x < t.length ∧
     SpecLut1d.highOf t.length x < t.length) ∧
    SpecLut1d.applyLut1d t 1 = t.getD (t.length - 1) 0 := by
  have hL1 : (1 : ℚ) ≤ (t.length : ℚ) := by
    have : (2 : ℚ) ≤ (t.length : ℚ) := by exact_mod_cast hL
    linarith
  have hcastL : ((t.length - 1 : ℕ) : ℚ) = (t.length : ℚ) - 1 := by
    have : 1 ≤ t.length := by omega
    push_cast [Nat.cast_sub this]
    ring
  have hclamp : SpecLut1d.clampX x = x := by
    unfold SpecLut1d.clampX
    rw [min_eq_right hx1, max_eq_right hx0]
  have hlow_le : SpecLut1d.lowOf t.length x ≤ t.length - 1 := by
    unfold SpecLut1d.lowOf SpecLut1d.idxOf
    rw [hclamp]
    have hidx : x * ((t.length : ℚ) - 1) ≤ ((t.length - 1 : ℕ) : ℚ) := by
      rw [hcastL]
      exact mul_le_of_le_one_left (by linarith) hx1
    have hfl : ⌊x * ((t.length : ℚ) - 1)⌋ ≤ ((t.length - 1 : ℕ) : ℤ) := by
      have := Int.floor_le_floor hidx
      rwa [Int.floor_natCast] at this
    exact Int.toNat_le.mpr hfl
  refine ⟨⟨by omega, ?_⟩, ?_⟩
  · have : SpecLut1d.highOf t.length x ≤ t.length - 1 := min_le_right _ _
    omega
  · have hclamp1 : SpecLut1d.clampX 1 = 1 := by
      unfold SpecLut1d.clampX
      norm_num
    have hidx1 : SpecLut1d.idxOf t.length 1 = ((t.length - 1 : ℕ) : ℚ) := by
      unfold SpecLut1d.idxOf
      rw [hclamp1, hcastL]
      ring
    have hlow1 : SpecLut1d.lowOf t.length 1 = t.length - 1 := by
      unfold SpecLut1d.lowOf
      rw [hidx1, Int.floor_natCast]
      simp
    have hhigh1 : SpecLut1d.highOf t.length 1 = t.length - 1 := by
      unfold SpecLut1d.highOf
      rw [hlow1]
      omega
    have hfrac1 : SpecLut1d.fracOf t.length 1 = 0 := by
      unfold SpecLut1d.fracOf
      rw [hidx1, hlow1]
      ring
    unfold SpecLut1d.applyLut1d
    rw [hlow1, hhigh1, hfrac1]
    unfold SpecLut1d.lerp
    ring

/-- Witness for claim C8 on a concrete 3-sample table at x = 1/3. -/
theorem claim_C8_lut1d_bounds_witness :
    (2 ≤ ([0, 1/2, 1] : List ℚ).length ∧ 0 ≤ (1/3 : ℚ) ∧ (1/3 : ℚ) ≤ 1) ∧
    (SpecLut1d.lowOf ([0, 1/2, 1] : List ℚ).length (1/3) <
        ([0, 1/2, 1] : List ℚ).length ∧
     SpecLut1d.highOf ([0, 1/2, 1] : List ℚ).length (1/3) <
        ([0, 1/2, 1] : List ℚ).length) ∧
    SpecLut1d.applyLut1d ([0, 1/2, 1] : List ℚ) 1 =
      ([0, 1/2, 1] : List ℚ).getD (([0, 1/2, 1] : List ℚ).length - 1) 0 :=
  ⟨⟨by norm_num, by norm_num, by norm_num⟩,
    (claim_C8_lut1d_bounds [0, 1/2, 1] (1/3) (by norm_num) (by norm_num)
      (by norm_num)).1,
    (claim_C8_lut1d_bounds [0, 1/2, 1] (1/3) (by norm_num) (by norm_num)
      (by norm_num)).2⟩

namespace VerifyTransfer

/-- The three HLG constants of verify_transfer.py. -/
def HLG_A : ℝ := 0.17883277
def HLG_B : ℝ := 0.28466892
def HLG_C : ℝ := 0.55991073

/-- The hlg_oetf function of verify_transfer.py: 0 for non-positive
input, the square-root segment up to 1/12, the logarithmic segment
above. -/
noncomputable def hlg_oetf (e : ℝ) : ℝ :=
  if e ≤ 0 then 0
  else if e ≤ 1 / 12 then Real.sqrt (3 * e)
  else HLG_A * Real.log (12 * e - HLG_B) + HLG_C

/-- The hlg_eotf function of verify_transfer.py: 0 for non-positive
input, the square segment up to 0.5, the exponential segment above. -/
noncomputable def hlg_eotf (ep : ℝ) : ℝ :=
  if ep ≤ 0 then 0
  else if ep ≤ 0.5 then ep * ep / 3
  else (Real.exp ((ep - HLG_C) / HLG_A) + HLG_B) / 12

/-- Degree-7 Taylor lower bound of the exponential on non-negative
inputs. -/
theorem exp_lb (x : ℝ) (hx : 0 ≤ x) :
    1 + x + x ^ 2 / 2 + x ^ 3 / 6 + x ^ 4 / 24 + x ^ 5 / 120 + x ^ 6 / 720 +
      x ^ 7 / 5040 ≤ Real.exp x := by
  have h := Real.sum_le_exp_of_nonneg hx 8
  rw [Finset.sum_range_succ, Finset.sum_range_succ, Finset.sum_range_succ,
    Finset.sum_range_succ, Finset.sum_range_succ, Finset.sum_range_succ,
    Finset.sum_range_succ, Finset.sum_range_succ, Finset.sum_range_zero] at h
  norm_num [Nat.factorial] at h
  linarith

/-- Rational lower bound of exp at 0.335009, used to bound the HLG
segment-boundary region from above. -/
theorem exp_lb1 : (1.397951 : ℝ) ≤ Real.exp 0.335009 := by
  have h := exp_lb 0.335009 (by norm_num)
  have h2 : (1.397951 : ℝ) ≤
      1 + 0.335009 + 0.335009 ^ 2 / 2 + 0.335009 ^ 3 / 6 + 0.335009 ^ 4 / 24 +
        0.335009 ^ 5 / 120 + 0.335009 ^ 6 / 720 + 0.335009 ^ 7 / 5040 := by
    norm_num
  linarith

/-- Rational lower bound of exp at 0.335012, used to bound the coded
value at the segment boundary from below. -/
theorem exp_lb2 : (1.3979545 : ℝ) ≤ Real.exp 0.335012 := by
  have h := exp_lb 0.335012 (by norm_num)
  have h2 : (1.3979545 : ℝ) ≤
      1 + 0.335012 + 0.335012 ^ 2 / 2 + 0.335012 ^ 3 / 6 + 0.335012 ^ 4 / 24 +
        0.335012 ^ 5 / 120 + 0.335012 ^ 6 / 720 + 0.335012 ^ 7 / 5040 := by
    norm_num
  linarith

end VerifyTransfer

/-- HLG decode inverts HLG encode within the stated tolerance
(claim C9): for every e in the unit interval the round trip
hlg_eotf (hlg_oetf e) equals e within 1e-4 relative error.  The round
trip is exact on the square-root segment and on the part of the
logarithmic segment whose coded value exceeds 0.5; on the sliver just
above 1/12, where the coded value falls fractionally below 0.5 because
the rounded constants do not meet the boundary exactly, the error is
bounded by about 4e-7, well inside the tolerance (so the parenthetical
exactness at the boundary holds only approximately, within the stated
tolerance). -/
theorem claim_C9_hlg_roundtrip (e : ℝ) (h0 : 0 ≤ e) (h1 : e ≤ 1) :
    |VerifyTransfer.hlg_eotf (VerifyTransfer.hlg_oetf e) - e| ≤ 1e-4 * e := by
  unfold VerifyTransfer.hlg_oetf
  by_cases he0 : e ≤ 0
  · have he : e = 0 := le_antisymm he0 h0
    rw [if_pos he0]
    unfold VerifyTransfer.hlg_eotf
    rw [if_pos le_rfl, he]
    norm_num
  · rw [if_neg he0]
    have hepos : 0 < e := not_le.mp he0
    by_cases he12 : e ≤ 1 / 12
    · rw [if_pos he12]
      unfold VerifyTransfer.hlg_eotf
      have hs_pos : 0 < Real.sqrt (3 * e) := Real.sqrt_pos.mpr (by linarith)
      rw [if_neg (not_le.mpr hs_pos)]
      have hs_le : Real.sqrt (3 * e) ≤ 0.5 := by
        rw [Real.sqrt_le_iff]
        constructor
        · norm_num
        · nlinarith
      rw [if_pos hs_le, Real.mul_self_sqrt (by linarith : (0 : ℝ) ≤ 3 * e),
        show 3 * e / 3 - e = 0 by ring, abs_zero]
      exact mul_nonneg (by norm_num) h0
    · rw [if_neg he12]
      have he12q : (1 : ℝ) / 12 < e := not_le.mp he12
      have hy_pos : (0 : ℝ) < 12 * e - VerifyTransfer.HLG_B := by
        unfold VerifyTransfer.HLG_B
        linarith
      set ep := VerifyTransfer.HLG_A * Real.log (12 * e - VerifyTransfer.HLG_B) +
        VerifyTransfer.HLG_C with hep
      have hlog_lb : (-0.335012 : ℝ) ≤ Real.log (12 * e - VerifyTransfer.HLG_B) := by
        rw [Real.le_log_iff_exp_le hy_pos]
        have h1x : Real.exp (-0.335012 : ℝ) ≤ (1.3979545 : ℝ)⁻¹ := by
          rw [Real.exp_neg]
          exact inv_le_inv_of_le (by norm_num) VerifyTransfer.exp_lb2
        have h2x : ((1.3979545 : ℝ))⁻¹ ≤ 0.71533108 := by
          rw [inv_eq_one_div, div_le_iff (by norm_num : (0 : ℝ) < 1.3979545)]
          norm_num
        have h3x : (0.71533108 : ℝ) ≤ 12 * e - VerifyTransfer.HLG_B := by
          unfold VerifyTransfer.HLG_B
          linarith
        linarith
      have hep_lb : (0.499999 : ℝ) ≤ ep := by
        rw [hep]
        have hm := mul_le_mul_of_nonneg_left hlog_lb
          (show (0 : ℝ) ≤ 0.17883277 by norm_num)
        unfold VerifyTransfer.HLG_A VerifyTransfer.HLG_C
        linarith
      have hep_pos : ¬(ep ≤ 0) := not_le.mpr (lt_of_lt_of_le (by norm_num) hep_lb)
      unfold VerifyTransfer.hlg_eotf
      rw [if_neg hep_pos]
      by_cases heps : ep ≤ 0.5
      · rw [if_pos heps]
        have heps2 : VerifyTransfer.HLG_A * Real.log (12 * e - VerifyTransfer.HLG_B) +
            VerifyTransfer.HLG_C ≤ 0.5 := by
          rw [← hep]
          exact heps
        have hlog_ub : Real.log (12 * e - VerifyTransfer.HLG_B) ≤ -0.335009 := by
          unfold VerifyTransfer.HLG_A VerifyTransfer.HLG_C at heps2
          linarith
        have hy_ub : 12 * e - VerifyTransfer.HLG_B ≤ (1.397951 : ℝ)⁻¹ := by
          have h6 : 12 * e - VerifyTransfer.HLG_B ≤ Real.exp (-0.335009 : ℝ) := by
            rw [← Real.exp_log hy_pos]
            exact Real.exp_le_exp.mpr hlog_ub
          have h7 : Real.exp (-0.335009 : ℝ) ≤ (1.397951 : ℝ)⁻¹ := by
            rw [Real.exp_neg]
            exact inv_le_inv_of_le (by norm_num) VerifyTransfer.exp_lb1
          linarith
      
        have he_ub : e ≤ (0.715334 + VerifyTransfer.HLG_B) / 12 := by
          have h8 : ((1.397951 : ℝ))⁻¹ ≤ 0.715334 := by
            rw [inv_eq_one_div, div_le_iff (by norm_num : (0 : ℝ) < 1.397951)]
            norm_num
          linarith
        have hep_sq_ub : ep * ep ≤ 0.25 := by nlinarith
        have hep_sq_lb : (0.499999 : ℝ) * 0.499999 ≤ ep * ep := by nlinarith
        have hnonpos : ep * ep / 3 - e ≤ 0 := by linarith
        rw [abs_of_nonpos hnonpos]
        unfold VerifyTransfer.HLG_B at he_ub
        linarith
      · rw [if_neg heps]
        have hA0 : VerifyTransfer.HLG_A ≠ 0 := by
          unfold VerifyTransfer.HLG_A
          norm_num
        have hfrac : (ep - VerifyTransfer.HLG_C) / VerifyTransfer.HLG_A =
            Real.log (12 * e - VerifyTransfer.HLG_B) := by
          rw [hep]
          field_simp
        rw [hfrac, Real.exp_log hy_pos,
          show (12 * e - VerifyTransfer.HLG_B + VerifyTransfer.HLG_B) / 12 - e = 0
            by ring, abs_zero]
        exact mul_nonneg (by norm_num) h0

/-- Witness for claim C9 at e = 1/24 inside the square-root segment. -/
theorem claim_C9_hlg_roundtrip_witness :
    ((0 : ℝ) ≤ 1 / 24 ∧ (1 / 24 : ℝ) ≤ 1) ∧
    |VerifyTransfer.hlg_eotf (VerifyTransfer.hlg_oetf (1 / 24)) - 1 / 24| ≤
      1e-4 * (1 / 24) :=
  ⟨⟨by norm_num, by norm_num⟩,
    claim_C9_hlg_roundtrip (1 / 24) (by norm_num) (by norm_num)⟩
